import Mathlib

/-!
Shallow embedding of the cache logic of `away_print.py` and the relay
counter logic of `relay_activity.py` from the `irc-scripts` repository.

The scripts keep three module-level containers:
  * `KNOWN_AWAY : Dict[server, Dict[nick, (timestamp, awaymsg)]]`
  * `CACHE      : Dict[server, Dict[nick, Set[channel]]]`
  * `BUFFERS    : Dict[name, pointer]`  (insertion ordered, keys unique)

`KNOWN_AWAY` and `CACHE` are `defaultdict`s, so accessing a missing server
key silently yields an empty inner dict; we model them as total functions
into `Option`, where `none` stands for "key absent".  `BUFFERS` is a plain
`dict`; since the callbacks iterate over it in insertion order we model it
as an ordered association list.  Python `set`s are modelled as
duplicate-free lists (`setAdd` inserts only when absent, `List.erase`
models `set.discard` on such lists).

Each signal callback becomes a function from the state (plus the parsed
message fields the host hands to the callback) to the new state; callbacks
that can raise a Python exception additionally return an `Option Err`
(the global state keeps every mutation performed before the raise, exactly
as in Python).
-/

/-- Python exceptions that the modelled callbacks can raise. -/
inductive Err where
  | keyError
  | indexError
  | runtimeError
  deriving DecidableEq, Repr

/-- The module-level mutable state of `away_print.py`. -/
structure St where
  /-- `KNOWN_AWAY[server][nick] = (timestamp last went away, away message)`;
  timestamps are seconds on a monotone clock. -/
  known_away : String → String → Option (Nat × String)
  /-- `CACHE[server][nick] = set of channels`, the set as a duplicate-free list. -/
  cache : String → String → Option (List String)
  /-- `BUFFERS`, an insertion-ordered association list from `server.name` to
  an opaque buffer pointer. -/
  buffers : List (String × String)

/-- The empty state a freshly loaded script starts from. -/
def St.empty : St := ⟨fun _ _ => none, fun _ _ => none, []⟩

/-- Dictionary lookup `d[k]` returning `none` for a `KeyError`. -/
def dictGet? (l : List (String × String)) (k : String) : Option String :=
  (l.find? (fun p => p.1 == k)).map (fun p => p.2)

/-- Dictionary assignment `d[k] = v`: replace the entry in place when the key
exists (keys are unique in a Python dict), append otherwise (Python dicts
keep insertion order). -/
def dictSet : List (String × String) → String → String → List (String × String)
  | [], k, v => [(k, v)]
  | p :: t, k, v => if p.1 = k then (k, v) :: t else p :: dictSet t k v

/-- Dictionary deletion `del d[k]` (keys are unique in a Python dict, so
removing every pair with key `k` is the same as removing the one entry). -/
def dictDel (l : List (String × String)) (k : String) : List (String × String) :=
  l.filter (fun p => !(p.1 == k))

/-- `set.add`: Python sets ignore an `add` of an element already present. -/
def setAdd (l : List String) (x : String) : List String :=
  if x ∈ l then l else l ++ [x]

/-- Membership of a channel in the presence set the cache holds for
`(server, nick)`; a missing entry holds nothing. -/
def inPresence (st : St) (server nick chan : String) : Bool :=
  match st.cache server nick with
  | some l => decide (chan ∈ l)
  | none => false

/-- `nick_in_cb`: rename the `KNOWN_AWAY` entry and the query buffer-handle
entry from the old nick to the new nick.  (The source renames nothing in
`CACHE`.) -/
def nick_in (st : St) (server oldnick newnick : String) : St :=
  let ka := st.known_away
  let ka' :=
    if (ka server oldnick).isSome then
      fun s n =>
        if s = server then
          if n = newnick then ka server oldnick
          else if n = oldnick then none
          else ka s n
        else ka s n
    else ka
  let bufname := server ++ "." ++ oldnick
  let bufs :=
    match dictGet? st.buffers bufname with
    | some v => dictSet (dictDel st.buffers bufname) (server ++ "." ++ newnick) v
    | none => st.buffers
  { st with known_away := ka', buffers := bufs }

/-- `part_in_cb`: the host also supplies the connection's own nick
(`w.info_get("irc_nick", server)`), passed here as `localOf`. -/
def part_in (localOf : String → String) (st : St) (server channel nick : String) : St :=
  if nick = localOf server then
    { st with cache := fun s n =>
        if s = server then (st.cache s n).map (fun l => l.erase channel) else st.cache s n }
  else if (st.cache server nick).isSome then
    { st with cache := fun s n =>
        if s = server ∧ n = nick then (st.cache s n).map (fun l => l.erase channel)
        else st.cache s n }
  else st

/-- `quit_in_cb`: drop the nick's presence entry and its query buffer entry. -/
def quit_in (st : St) (server nick : String) : St :=
  { st with
    cache := fun s n => if s = server ∧ n = nick then none else st.cache s n,
    buffers := dictDel st.buffers (server ++ "." ++ nick) }

/-- Python `str.split(' ')` (single-space separator, empty fields kept).
`split(' ', 2)[1]` equals index 1 of the full split whenever it exists. -/
def splitSp : List Char → List (List Char)
  | [] => [[]]
  | c :: t =>
    if c = ' ' then [] :: splitSp t
    else
      match splitSp t with
      | h :: r => (c :: h) :: r
      | [] => [[c]]

/-- The kicked nick of a KICK message: `arguments.split(' ', 2)[1]`,
`none` modelling the `IndexError` when fewer than two fields exist. -/
def kickTarget (arguments : String) : Option String :=
  ((splitSp arguments.data).get? 1).map (fun l => String.mk l)

/-- `kick_in_cb`: like a part, but when the local user is kicked the source
also runs `del BUFFERS[server + "." + channel]`, which raises `KeyError`
when that entry is absent (the `CACHE` mutations made before the raise
persist, as Python globals do). -/
def kick_in (localOf : String → String) (st : St) (server channel arguments : String) :
    St × Option Err :=
  match kickTarget arguments with
  | none => (st, some .indexError)
  | some nick =>
    if nick = localOf server then
      let cache' := fun s n =>
        if s = server then (st.cache s n).map (fun l => l.erase channel) else st.cache s n
      let key := server ++ "." ++ channel
      if (dictGet? st.buffers key).isSome then
        ({ st with cache := cache', buffers := dictDel st.buffers key }, none)
      else
        ({ st with cache := cache' }, some .keyError)
    else if (st.cache server nick).isSome then
      ({ st with cache := fun s n =>
          if s = server ∧ n = nick then (st.cache s n).map (fun l => l.erase channel)
          else st.cache s n }, none)
    else (st, none)

/-- `join_in_cb`: add the channel to the nick's presence set and record the
host-supplied buffer pointer for the channel when not already known. -/
def join_in (st : St) (server nick channel ptr : String) : St :=
  let buffer_name := server ++ "." ++ channel
  let cache' := fun s n =>
    if s = server ∧ n = nick then
      match st.cache server nick with
      | some l => some (setAdd l channel)
      | none => some [channel]
    else st.cache s n
  let bufs :=
    if (dictGet? st.buffers buffer_name).isSome then st.buffers
    else st.buffers ++ [(buffer_name, ptr)]
  { st with cache := cache', buffers := bufs }

/-- `irc_discon_cb`: clear the network's presence cache, then iterate the
`BUFFERS` dict deleting names that start with the network name.  Deleting
from a Python dict while iterating it raises `RuntimeError` on the next
iteration step, so at most the first matching entry is removed and the
callback raises whenever any entry matches. -/
def irc_discon (st : St) (network : String) : St × Option Err :=
  let cache' := fun s n => if s = network then none else st.cache s n
  match st.buffers.find? (fun p => network.data.isPrefixOf p.1.data) with
  | none => ({ st with cache := cache' }, none)
  | some _ =>
    ({ st with
        cache := cache',
        buffers := st.buffers.eraseP (fun p => network.data.isPrefixOf p.1.data) },
     some .runtimeError)

/-- `buffer_closed_cb`: delete the first `BUFFERS` entry whose pointer equals
the closed buffer's pointer, then `break` (so no iteration error occurs). -/
def buffer_closed (st : St) (ptr : String) : St :=
  { st with buffers := st.buffers.eraseP (fun p => p.2 == ptr) }

/-- `get_buffer`: `BUFFERS[server + "." + chan]`, `none` for the `KeyError`. -/
def get_buffer (st : St) (server chan : String) : Option String :=
  dictGet? st.buffers (server ++ "." ++ chan)

/-! ### Away-status transitions (`away_in_cb`) and duration formatting -/

/-- Python `str.rstrip()`: strip trailing whitespace. -/
def rstrip (s : String) : String :=
  String.mk ((s.data.reverse.dropWhile Char.isWhitespace).reverse)

/-- The `"s" if n > 1 else ""` plural suffix used by the source. -/
def pluralS (n : Nat) : String := if n > 1 then "s" else ""

/-- The away-duration string built by `away_in_cb` from an elapsed time in
whole seconds: `timedelta` decomposition (`tdelta.days`,
`divmod(tdelta.seconds, 3600)`, `divmod(remainder, 60)`), one
`"{} unit{} "` fragment per non-zero component, then `rstrip`. -/
def fmtDur (elapsed : Nat) : String :=
  let days := elapsed / 86400
  let secs := elapsed % 86400
  let hours := secs / 3600
  let remainder := secs % 3600
  let minutes := remainder / 60
  let seconds := remainder % 60
  let dur := if days ≠ 0 then toString days ++ " day" ++ pluralS days ++ " " else ""
  let dur := if hours ≠ 0 then dur ++ (toString hours ++ " hour" ++ pluralS hours ++ " ") else dur
  let dur := if minutes ≠ 0 then
      dur ++ (toString minutes ++ " minute" ++ pluralS minutes ++ " ")
    else dur
  let dur := if seconds ≠ 0 then
      dur ++ (toString seconds ++ " second" ++ pluralS seconds)
    else dur
  rstrip dur

/-- The four notification templates `away_in_cb` can hand to
`propagate_common_msg` (`MSG_BACK_NO_DURATION`, `MSG_BACK_DURATION`,
`MSG_AWAY`, `MSG_STILL_AWAY`); the payload is the part that varies. -/
inductive Notif where
  | backNoDur
  | backDur (dur : String)
  | nowAway (msg : String)
  | stillAway (msg : String)
  deriving DecidableEq, Repr

/-- The `KNOWN_AWAY` table on its own. -/
abbrev KA := String → String → Option (Nat × String)

/-- Point update of the `KNOWN_AWAY` table. -/
def kaSet (ka : KA) (server nick : String) (v : Option (Nat × String)) : KA :=
  fun s n => if s = server ∧ n = nick then v else ka s n

/-- `away_in_cb`: the away-notify state transition on `KNOWN_AWAY` together
with the notification it hands to `propagate_common_msg` (`none` when the
callback prints nothing).  `now` is the clock value `datetime.now()`
expressed in whole seconds; `text` is the parsed away reason. -/
def away_in (ka : KA) (server nick text : String) (now : Nat) : KA × Option Notif :=
  if text = "" then
    match ka server nick with
    | some (t, _) =>
      let dur := fmtDur (now - t)
      (kaSet ka server nick none,
       some (if dur = "" then .backNoDur else .backDur dur))
    | none => (ka, some .backNoDur)
  else
    match ka server nick with
    | some (_, m) =>
      if text ≠ m then (kaSet ka server nick (some (now, text)), some (.stillAway text))
      else (ka, none)
    | none => (kaSet ka server nick (some (now, text)), some (.nowAway text))

/-! ### Specification-side definitions (worded from the spec, to be compared
with the source-side definitions above) -/

/-- Joining a list of words with single spaces. -/
def joinWords : List String → String
  | [] => ""
  | [q] => q
  | q :: t => q ++ " " ++ joinWords t

/-- Duration formatting as the specification words it: decompose the elapsed
time into days/hours/minutes/seconds, keep only the non-zero components,
largest unit first, each written `"<magnitude> <unit>"` with an `"s"`
suffix exactly when the magnitude is greater than one, joined by single
spaces. -/
def specDurFmt (elapsed : Nat) : String :=
  let d := elapsed / 86400
  let h := elapsed % 86400 / 3600
  let m := elapsed % 3600 / 60
  let s := elapsed % 60
  joinWords ((([(d, "day"), (h, "hour"), (m, "minute"), (s, "second")].filter
      (fun p => p.1 ≠ 0)).map
    (fun p => toString p.1 ++ " " ++ p.2 ++ (if p.1 > 1 then "s" else ""))))

/-- The away-notify transition as the specification words it: a non-empty
reason with no stored entry records the entry and announces "is now away";
a non-empty reason equal to the stored message does nothing; a non-empty
reason different from the stored message updates the entry and announces
"is still away"; an empty reason removes any stored entry and announces
"has returned", with the formatted duration exactly when at least one
second elapsed since the stored timestamp. -/
def awaySpec (ka : KA) (server nick text : String) (now : Nat) : KA × Option Notif :=
  if text = "" then
    match ka server nick with
    | some (t, _) =>
      (kaSet ka server nick none,
       some (if now - t ≥ 1 then .backDur (specDurFmt (now - t)) else .backNoDur))
    | none => (ka, some .backNoDur)
  else
    match ka server nick with
    | some (_, m) =>
      if text = m then (ka, none)
      else (kaSet ka server nick (some (now, text)), some (.stillAway text))
    | none => (kaSet ka server nick (some (now, text)), some (.nowAway text))

/-! ### Lemmas about `rstrip` and word joining -/

/-- A string whose last character exists and is not whitespace. -/
def endsOk (s : String) : Bool :=
  match s.data.reverse with
  | [] => false
  | c :: _ => !c.isWhitespace

theorem rstrip_append_space (s : String) : rstrip (s ++ " ") = rstrip s := by
  unfold rstrip
  have h : (s ++ " ").data = s.data ++ [' '] := String.data_append s " "
  rw [h, List.reverse_append]
  simp [List.dropWhile]

theorem rstrip_append_endsOk (x q : String) (h : endsOk q = true) :
    rstrip (x ++ q) = x ++ q := by
  unfold endsOk at h
  rcases hq : q.data.reverse with _ | ⟨c, r⟩
  · rw [hq] at h; simp at h
  · rw [hq] at h
    simp only [Bool.not_eq_true'] at h
    unfold rstrip
    have h1 : (x ++ q).data.reverse = c :: (r ++ x.data.reverse) := by
      rw [String.data_append, List.reverse_append, hq]; rfl
    rw [h1, List.dropWhile_cons, h]
    simp only [Bool.false_eq_true, if_false]
    rw [← h1, List.reverse_reverse]

/-- Concatenating every word with a trailing single space. -/
def concatSp : List String → String
  | [] => ""
  | q :: t => q ++ " " ++ concatSp t

theorem concatSp_append_eq (l : List String) (q : String) :
    concatSp l ++ q = joinWords (l ++ [q]) := by
  induction l with
  | nil => simp [concatSp, joinWords]
  | cons a t ih =>
    rcases t with _ | ⟨b, t⟩
    · simp [concatSp, joinWords, String.append_assoc, String.append_empty]
    · show a ++ " " ++ concatSp (b :: t) ++ q = joinWords (a :: ((b :: t) ++ [q]))
      rw [String.append_assoc, String.append_assoc, ih, List.cons_append,
        show joinWords (a :: b :: (t ++ [q])) = a ++ " " ++ joinWords (b :: (t ++ [q])) from rfl,
        String.append_assoc]

theorem concatSp_snoc (l : List String) (q : String) :
    concatSp (l ++ [q]) = concatSp l ++ (q ++ " ") := by
  induction l with
  | nil => simp [concatSp, String.append_assoc, String.append_empty, String.empty_append]
  | cons a t ih =>
    show a ++ " " ++ concatSp (t ++ [q]) = a ++ " " ++ concatSp t ++ (q ++ " ")
    rw [ih]
    simp [String.append_assoc]

theorem endsOk_append (x q : String) (h : endsOk q = true) : endsOk (x ++ q) = true := by
  unfold endsOk at *
  rcases hq : q.data.reverse with _ | ⟨c, r⟩
  · rw [hq] at h; simp at h
  · have h1 : (x ++ q).data.reverse = c :: (r ++ x.data.reverse) := by
      rw [String.data_append, List.reverse_append, hq]; rfl
    rw [hq] at h
    rw [h1]
    exact h

theorem rstrip_concatSp (l : List String) (h : ∀ q ∈ l, endsOk q = true) :
    rstrip (concatSp l) = joinWords l := by
  rcases List.eq_nil_or_concat l with rfl | ⟨l', q, rfl⟩
  · rfl
  · rw [List.concat_eq_append] at h ⊢
    rw [concatSp_snoc, ← String.append_assoc, rstrip_append_space,
      rstrip_append_endsOk _ _ (h q (by simp)), concatSp_append_eq]

theorem rstrip_eq_of (x y : String) (h : y = x ∨ y = x ++ " ") :
    rstrip x = rstrip y := by
  rcases h with rfl | rfl
  · rfl
  · rw [rstrip_append_space]

/-- The list of per-unit fragments `away_in_cb` concatenates (without their
trailing separators), in source order. -/
def codePieces (d h m s : Nat) : List String :=
  (if d ≠ 0 then [toString d ++ " day" ++ pluralS d] else []) ++
  (if h ≠ 0 then [toString h ++ " hour" ++ pluralS h] else []) ++
  (if m ≠ 0 then [toString m ++ " minute" ++ pluralS m] else []) ++
  (if s ≠ 0 then [toString s ++ " second" ++ pluralS s] else [])

theorem endsOk_piece (v : Nat) (u : String) (hu : endsOk u = true) :
    endsOk (toString v ++ u ++ pluralS v) = true := by
  unfold pluralS
  by_cases hv : v > 1
  · simp only [hv, if_pos]
    exact endsOk_append _ _ (by decide)
  · simp only [hv, if_neg, if_false, String.append_empty]
    exact endsOk_append _ _ hu

theorem endsOk_codePieces (d h m s : Nat) :
    ∀ q ∈ codePieces d h m s, endsOk q = true := by
  intro q hq
  simp only [codePieces, List.mem_append] at hq
  rcases hq with ((hq | hq) | hq) | hq <;>
    [skip; skip; skip; skip] <;>
  · split at hq <;> simp at hq
    · subst hq
      exact endsOk_piece _ _ (by decide)

theorem piece_day (v : Nat) :
    toString v ++ " " ++ "day" ++ (if v > 1 then "s" else "")
      = toString v ++ " day" ++ pluralS v := by
  rw [String.append_assoc (toString v) " " "day"]; rfl

theorem piece_hour (v : Nat) :
    toString v ++ " " ++ "hour" ++ (if v > 1 then "s" else "")
      = toString v ++ " hour" ++ pluralS v := by
  rw [String.append_assoc (toString v) " " "hour"]; rfl

theorem piece_minute (v : Nat) :
    toString v ++ " " ++ "minute" ++ (if v > 1 then "s" else "")
      = toString v ++ " minute" ++ pluralS v := by
  rw [String.append_assoc (toString v) " " "minute"]; rfl

theorem piece_second (v : Nat) :
    toString v ++ " " ++ "second" ++ (if v > 1 then "s" else "")
      = toString v ++ " second" ++ pluralS v := by
  rw [String.append_assoc (toString v) " " "second"]; rfl

theorem filterMap_eq_codePieces (d h m s : Nat) :
    ([(d, "day"), (h, "hour"), (m, "minute"), (s, "second")].filter
        (fun p => p.1 ≠ 0)).map
      (fun p => toString p.1 ++ " " ++ p.2 ++ (if p.1 > 1 then "s" else ""))
      = codePieces d h m s := by
  by_cases hd : d = 0 <;> by_cases hh : h = 0 <;> by_cases hm : m = 0 <;> by_cases hs : s = 0 <;>
    simp [codePieces, hd, hh, hm, hs, List.filter, piece_day, piece_hour, piece_minute,
      piece_second]

theorem fmtDur_eq_specDurFmt (e : Nat) : fmtDur e = specDurFmt e := by
  have h1 : e % 86400 % 3600 = e % 3600 := Nat.mod_mod_of_dvd e (by norm_num)
  have h2 : e % 3600 % 60 = e % 60 := Nat.mod_mod_of_dvd e (by norm_num)
  simp only [fmtDur, specDurFmt, h1, h2]
  rw [filterMap_eq_codePieces]
  generalize e / 86400 = d
  generalize e % 86400 / 3600 = h
  generalize e % 3600 / 60 = m
  generalize e % 60 = s
  rw [← rstrip_concatSp (codePieces d h m s) (endsOk_codePieces d h m s)]
  apply rstrip_eq_of
  by_cases hs : s = 0
  · left
    by_cases hd : d = 0 <;> by_cases hh : h = 0 <;> by_cases hm : m = 0 <;>
      simp [codePieces, concatSp, hd, hh, hm, hs, String.append_assoc, String.append_empty,
        String.empty_append]
  · right
    by_cases hd : d = 0 <;> by_cases hh : h = 0 <;> by_cases hm : m = 0 <;>
      simp [codePieces, concatSp, hd, hh, hm, hs, String.append_assoc, String.append_empty,
        String.empty_append]

theorem joinWords_ne_empty (q : String) (t : List String) (hq : endsOk q = true) :
    joinWords (q :: t) ≠ "" := by
  have hlen : 1 ≤ q.length := by
    unfold endsOk at hq
    rcases hr : q.data.reverse with _ | ⟨c, r⟩
    · rw [hr] at hq; simp at hq
    · have h2 : q.data.length = (c :: r).length := by rw [← hr, List.length_reverse]
      have h3 : q.length = q.data.length := rfl
      rw [h3, h2, List.length_cons]
      omega
  intro hcon
  rcases t with _ | ⟨b, t⟩
  · have hq0 : q = "" := hcon
    subst hq0
    have h0 : ("" : String).length = 0 := rfl
    omega
  · have h4 : (q ++ " " ++ joinWords (b :: t)).length = String.length "" := by
      rw [← hcon]; rfl
    rw [String.length_append, String.length_append] at h4
    have h5 : String.length " " = 1 := rfl
    have h6 : String.length "" = 0 := rfl
    omega

theorem codePieces_ne_nil (d h m s : Nat) (hne : ¬(d = 0 ∧ h = 0 ∧ m = 0 ∧ s = 0)) :
    ∃ q t, codePieces d h m s = q :: t ∧ endsOk q = true := by
  unfold codePieces
  by_cases hd : d = 0
  · by_cases hh : h = 0
    · by_cases hm : m = 0
      · by_cases hs : s = 0
        · exact absurd ⟨hd, hh, hm, hs⟩ hne
        · exact ⟨toString s ++ " second" ++ pluralS s, [],
            by simp [hd, hh, hm, hs], endsOk_piece s " second" (by decide)⟩
      · exact ⟨toString m ++ " minute" ++ pluralS m,
          (if s ≠ 0 then [toString s ++ " second" ++ pluralS s] else []),
          by simp [hd, hh, hm], endsOk_piece m " minute" (by decide)⟩
    · exact ⟨toString h ++ " hour" ++ pluralS h,
        (if m ≠ 0 then [toString m ++ " minute" ++ pluralS m] else []) ++
          (if s ≠ 0 then [toString s ++ " second" ++ pluralS s] else []),
        by simp [hd, hh], endsOk_piece h " hour" (by decide)⟩
  · exact ⟨toString d ++ " day" ++ pluralS d,
      (if h ≠ 0 then [toString h ++ " hour" ++ pluralS h] else []) ++
        ((if m ≠ 0 then [toString m ++ " minute" ++ pluralS m] else []) ++
          (if s ≠ 0 then [toString s ++ " second" ++ pluralS s] else [])),
      by simp [hd], endsOk_piece d " day" (by decide)⟩

theorem fmtDur_as_joinWords (e : Nat) :
    fmtDur e = joinWords (codePieces (e / 86400) (e % 86400 / 3600) (e % 3600 / 60) (e % 60)) := by
  rw [fmtDur_eq_specDurFmt]
  simp only [specDurFmt]
  rw [filterMap_eq_codePieces]

theorem fmtDur_eq_empty_iff (e : Nat) : fmtDur e = "" ↔ e = 0 := by
  constructor
  · intro hf
    by_contra he
    have hcomp : ¬(e / 86400 = 0 ∧ e % 86400 / 3600 = 0 ∧ e % 3600 / 60 = 0 ∧ e % 60 = 0) := by
      rintro ⟨a, b, c, d⟩
      omega
    obtain ⟨q, t, hqt, hq⟩ := codePieces_ne_nil _ _ _ _ hcomp
    rw [fmtDur_as_joinWords, hqt] at hf
    exact joinWords_ne_empty q t hq hf
  · rintro rfl; rfl

theorem away_in_eq_awaySpec (ka : KA) (server nick text : String) (now : Nat) :
    away_in ka server nick text now = awaySpec ka server nick text now := by
  unfold away_in awaySpec
  by_cases ht : text = ""
  · simp only [ht, if_pos]
    rcases hka : ka server nick with _ | ⟨t0, m0⟩
    · rfl
    · have hdur : (fmtDur (now - t0) = "") ↔ ¬(now - t0 ≥ 1) := by
        rw [fmtDur_eq_empty_iff]
        omega
      by_cases hz : now - t0 ≥ 1
      · have h1 : ¬(fmtDur (now - t0) = "") := by rw [hdur]; simp [hz]
        have h2 : ¬(specDurFmt (now - t0) = "") := by
          rw [← fmtDur_eq_specDurFmt]; exact h1
        simp [h1, h2, hz, fmtDur_eq_specDurFmt]
      · have h1 : fmtDur (now - t0) = "" := by rw [hdur]; exact hz
        simp [h1, hz]
  · simp only [ht, if_neg, if_false]
    rcases hka : ka server nick with _ | ⟨t0, m0⟩
    · simp [ht]
    · by_cases hm : text = m0 <;> simp [hm]


/-! ### Dictionary lemmas -/

theorem strAppend_cancel_left (a b c : String) (h : a ++ b = a ++ c) : b = c := by
  have h2 : a.data ++ b.data = a.data ++ c.data := by
    rw [← String.data_append, ← String.data_append, h]
  exact String.ext (List.append_cancel_left h2)

theorem dictGet?_set (l : List (String × String)) (k v k' : String) :
    dictGet? (dictSet l k v) k' = if k' = k then some v else dictGet? l k' := by
  induction l with
  | nil =>
    by_cases h : k' = k
    · simp [dictSet, dictGet?, List.find?, h]
    · have hkk : (k == k') = false := by
        simp only [beq_eq_false_iff_ne, ne_eq]
        exact fun hc => h hc.symm
      simp [dictSet, dictGet?, List.find?, hkk, h]
  | cons p t ih =>
    unfold dictSet
    by_cases hp : p.1 = k
    · rw [if_pos hp]
      by_cases h : k' = k
      · subst h
        have hkk : (k' == k') = true := by simp
        simp [dictGet?, List.find?_cons, hkk]
      · have h1 : (k == k') = false := by
          simp only [beq_eq_false_iff_ne, ne_eq]
          exact fun hc => h hc.symm
        have h2 : (p.1 == k') = false := by
          simp only [beq_eq_false_iff_ne, ne_eq, hp]
          exact fun hc => h hc.symm
        simp [dictGet?, List.find?_cons, h1, h2, h]
    · rw [if_neg hp]
      by_cases hp' : p.1 = k'
      · have h1 : (p.1 == k') = true := by simp [hp']
        have h : ¬(k' = k) := fun hc => hp (by rw [← hc, hp'])
        simp [dictGet?, List.find?_cons, h1, h]
      · have h1 : (p.1 == k') = false := by simp [hp']
        unfold dictGet? at ih ⊢
        simp only [List.find?_cons, h1]
        exact ih

theorem dictGet?_del (l : List (String × String)) (k k' : String) :
    dictGet? (dictDel l k) k' = if k' = k then none else dictGet? l k' := by
  induction l with
  | nil => by_cases h : k' = k <;> simp [dictDel, dictGet?, h]
  | cons p t ih =>
    unfold dictDel at ih ⊢
    rw [List.filter_cons]
    by_cases hp : p.1 = k
    · have h1 : (!(p.1 == k)) = false := by simp [hp]
      rw [h1]
      simp only [Bool.false_eq_true, if_false]
      by_cases h : k' = k
      · rw [ih, if_pos h, if_pos h]
      · have h2 : (p.1 == k') = false := by
          simp only [beq_eq_false_iff_ne, ne_eq, hp]
          exact fun hc => h hc.symm
        rw [ih, if_neg h, if_neg h]
        simp [dictGet?, List.find?_cons, h2]
    · have h1 : (!(p.1 == k)) = true := by simp [hp]
      rw [h1]
      simp only [if_pos]
      by_cases hp' : p.1 = k'
      · have h2 : (p.1 == k') = true := by simp [hp']
        have h : ¬(k' = k) := fun hc => hp (by rw [← hc, hp'])
        simp [dictGet?, List.find?_cons, h2, h]
      · have h2 : (p.1 == k') = false := by simp [hp']
        unfold dictGet? at ih ⊢
        simp only [List.find?_cons, h2]
        exact ih

/-! ### Claim theorems: away transitions and duration formatting -/

/-- C6: `away_in_cb` implements exactly the claimed case analysis: a
non-empty reason with no stored entry records (timestamp, message) and
emits one "is now away"; a non-empty reason equal to the stored message
emits nothing; a non-empty reason different from the stored message
updates the entry and emits "is still away"; an empty reason removes any
stored entry and emits "has returned", with the formatted duration exactly
when at least one second elapsed (else the plain message). -/
theorem c6_away_transitions (ka : KA) (server nick text : String) (now : Nat) :
    away_in ka server nick text now = awaySpec ka server nick text now :=
  away_in_eq_awaySpec ka server nick text now

/-- C7: the away-duration formatter decomposes the elapsed seconds into
days/hours/minutes/seconds, keeps exactly the non-zero components, largest
unit first, single-space separated, with an "s" suffix exactly when the
magnitude exceeds one (`fmtDur = specDurFmt`); 90 s gives
"1 minute 30 seconds", 3661 s gives "1 hour 1 minute 1 second", and 0 s
gives the empty string (so the plain "has returned" message is used). -/
theorem c7_duration_format :
    (∀ e : Nat, fmtDur e = specDurFmt e) ∧
    fmtDur 90 = "1 minute 30 seconds" ∧
    fmtDur 3661 = "1 hour 1 minute 1 second" ∧
    fmtDur 0 = "" :=
  ⟨fmtDur_eq_specDurFmt, by decide, by decide, rfl⟩

/-! ### Claim theorems: cache operations -/

/-- C1: failing input for "record_kick for the local user completes without
error when no buffer-handle entry exists for the kicked channel": kicking
the local user "me" from "#chan" on network "net" with `BUFFERS` empty
raises `KeyError` at `del BUFFERS[server + "." + channel]` (after having
mutated the presence cache), where the claim requires a silent no-op. -/
theorem c1_kick_raises_keyError :
    (kick_in (fun _ => "me")
      { known_away := fun _ _ => none,
        cache := fun s n => if s = "net" ∧ n = "alice" then some ["#chan"] else none,
        buffers := [] } "net" "#chan" "#chan me").2 = some Err.keyError := rfl

/-- Concrete state for claim C2: nick "old" has an away entry, a presence
set and a query buffer on network "net". -/
def stC2 : St :=
  { known_away := fun s n => if s = "net" ∧ n = "old" then some (5, "brb") else none,
    cache := fun s n => if s = "net" ∧ n = "old" then some ["#a"] else none,
    buffers := [("net.old", "p1")] }

/-- C2 counterexample: after `record_nick_change("net", "old", "new")` the
presence set is still keyed by "old" and the new key holds nothing — the
presence-set key is not renamed, contradicting the claim. -/
theorem c2_counterexample :
    (nick_in stC2 "net" "old" "new").cache "net" "new" = none ∧
    (nick_in stC2 "net" "old" "new").cache "net" "old" = some ["#a"] := ⟨rfl, rfl⟩

/-- C2 amended: `record_nick_change` renames the away entry and the query
buffer-handle entry — the new keys hold exactly what the old keys held and
the old keys are removed — but the presence map is left entirely
unchanged: the presence-set key is not renamed. -/
theorem c2_nick_change_amended (st : St) (server oldnick newnick : String)
    (hne : oldnick ≠ newnick) :
    (nick_in st server oldnick newnick).cache = st.cache ∧
    (∀ e, st.known_away server oldnick = some e →
      (nick_in st server oldnick newnick).known_away server newnick = some e ∧
      (nick_in st server oldnick newnick).known_away server oldnick = none) ∧
    (∀ p, dictGet? st.buffers (server ++ "." ++ oldnick) = some p →
      dictGet? (nick_in st server oldnick newnick).buffers (server ++ "." ++ newnick) = some p ∧
      dictGet? (nick_in st server oldnick newnick).buffers (server ++ "." ++ oldnick) = none) := by
  have hkey : ¬(server ++ "." ++ oldnick = server ++ "." ++ newnick) := by
    intro hc
    exact hne (strAppend_cancel_left (server ++ ".") oldnick newnick hc)
  refine ⟨rfl, ?_, ?_⟩
  · intro e he
    unfold nick_in
    have hs : (st.known_away server oldnick).isSome = true := by rw [he]; rfl
    constructor
    · simp [hs, he]
    · simp [hs, he, hne]
  · intro p hp
    unfold nick_in
    simp only [hp]
    constructor
    · rw [dictGet?_set]
      simp
    · rw [dictGet?_set, if_neg hkey, dictGet?_del]
      simp

/-- Witness for C2's amended theorem at a concrete state. -/
theorem c2_nick_change_amended_witness :
    (nick_in stC2 "net" "old" "new").known_away "net" "new" = some (5, "brb") ∧
    dictGet? (nick_in stC2 "net" "old" "new").buffers ("net" ++ "." ++ "new") = some "p1" := by
  have h := c2_nick_change_amended stC2 "net" "old" "new" (by decide)
  exact ⟨(h.2.1 (5, "brb") rfl).1, (h.2.2 "p1" rfl).1⟩

/-- Concrete state for claim C4: two buffer entries of network "fn" and one
presence entry. -/
def stC4 : St :=
  { known_away := fun _ _ => none,
    cache := fun s n => if s = "fn" ∧ n = "alice" then some ["#a"] else none,
    buffers := [("fn.#a", "p1"), ("fn.#b", "p2")] }

/-- C4: failing input for "record_disconnect(n) completes without error and
removes every buffer-handle entry of network n": with two matching buffer
entries, disconnecting "fn" raises `RuntimeError` (the Python code deletes
from `BUFFERS` while iterating it), removes only the first matching entry,
leaving the second — the presence cache of the network is cleared first. -/
theorem c4_disconnect_raises_runtimeError :
    (irc_discon stC4 "fn").2 = some Err.runtimeError ∧
    (irc_discon stC4 "fn").1.buffers = [("fn.#b", "p2")] ∧
    (irc_discon stC4 "fn").1.cache "fn" "alice" = none := by
  refine ⟨by decide, by decide, rfl⟩

/-- Concrete state for claim C5: nick "alice" is in "#c" on network "net",
whose buffer handle is cached. -/
def stC5 : St :=
  { known_away := fun _ _ => none,
    cache := fun s n => if s = "net" ∧ n = "alice" then some ["#c"] else none,
    buffers := [("net.#c", "p")] }

/-- C5 counterexample: when the local user "me" parts "#c", the
buffer-handle entry for "net.#c" is NOT dropped (the part handler never
touches `BUFFERS`), contradicting the claim for `record_part`. -/
theorem c5_counterexample :
    dictGet? (part_in (fun _ => "me") stC5 "net" "#c" "me").buffers "net.#c" = some "p" := rfl

/-- C5 amended: when the local user leaves a channel, the channel is removed
from every nick's presence set for that network by both handlers; only
`record_kick` additionally drops the buffer-handle entry for
(network, channel) — `record_part` leaves the buffer-handle table
unchanged.  (`hnd` is the no-duplicates invariant of Python sets; `hk`
says the KICK message names the local user; `hb` says the buffer entry
exists, the case C1 covers otherwise.) -/
theorem c5_local_leave_amended (localOf : String → String) (st : St)
    (server channel arguments : String)
    (hnd : ∀ s n l, st.cache s n = some l → l.Nodup)
    (hk : kickTarget arguments = some (localOf server))
    (hb : (dictGet? st.buffers (server ++ "." ++ channel)).isSome = true) :
    (∀ nk, inPresence (part_in localOf st server channel (localOf server)) server nk channel
      = false) ∧
    (part_in localOf st server channel (localOf server)).buffers = st.buffers ∧
    (∀ nk, inPresence (kick_in localOf st server channel arguments).1 server nk channel
      = false) ∧
    (kick_in localOf st server channel arguments).2 = none ∧
    dictGet? (kick_in localOf st server channel arguments).1.buffers
      (server ++ "." ++ channel) = none := by
  have hmem : ∀ (o : Option (List String)), (∀ l, o = some l → l.Nodup) →
      (match o.map (fun l => l.erase channel) with
        | some l => decide (channel ∈ l)
        | none => false) = false := by
    intro o ho
    rcases o with _ | l
    · rfl
    · show decide (channel ∈ l.erase channel) = false
      exact decide_eq_false (fun hc =>
        ((List.Nodup.mem_erase_iff (ho l rfl)).1 hc).1 rfl)
  refine ⟨?_, ?_, ?_, ?_, ?_⟩
  · intro nk
    unfold part_in inPresence
    simp only [eq_self_iff_true, ite_true]
    exact hmem (st.cache server nk) (fun l hl => hnd server nk l hl)
  · unfold part_in
    simp only [eq_self_iff_true, ite_true]
  · intro nk
    unfold kick_in inPresence
    rw [hk]
    simp only [eq_self_iff_true, ite_true, hb]
    exact hmem (st.cache server nk) (fun l hl => hnd server nk l hl)
  · unfold kick_in
    rw [hk]
    simp only [eq_self_iff_true, ite_true, hb]
  · unfold kick_in
    rw [hk]
    simp only [eq_self_iff_true, ite_true, hb]
    rw [dictGet?_del]
    simp

/-- Witness for C5's amended theorem at a concrete state. -/
theorem c5_local_leave_amended_witness :
    inPresence (part_in (fun _ => "me") stC5 "net" "#c" "me") "net" "alice" "#c" = false ∧
    dictGet? (kick_in (fun _ => "me") stC5 "net" "#c" "#c me").1.buffers
      ("net" ++ "." ++ "#c") = none := by
  have h := c5_local_leave_amended (fun _ => "me") stC5 "net" "#c" "#c me"
    (by
      intro s n l hl
      simp only [stC5] at hl
      by_cases hc : s = "net" ∧ n = "alice"
      · rw [if_pos hc] at hl
        cases hl
        decide
      · rw [if_neg hc] at hl
        cases hl)
    rfl rfl
  exact ⟨h.1 "alice", h.2.2.2.2⟩

/-- Concrete state for claim C8: nick "alice" is away on network "net". -/
def stC8 : St :=
  { known_away := fun s n => if s = "net" ∧ n = "alice" then some (0, "lunch") else none,
    cache := fun s n => if s = "net" ∧ n = "alice" then some ["#c"] else none,
    buffers := [("net.alice", "p")] }

/-- C8 counterexample: a quit by the away nick "alice" leaves the away entry
in place — `quit_in_cb` never touches `KNOWN_AWAY`, contradicting the
claim that the entry is removed on quit. -/
theorem c8_counterexample :
    (quit_in stC8 "net" "alice").known_away "net" "alice" = some (0, "lunch") := rfl

/-- C8 amended: an away entry is created by a non-empty away notification
and removed only by the empty-reason (return) notification; part, kick,
quit, disconnect and buffer-closed leave the away table entirely
unchanged. -/
theorem c8_away_entry_lifecycle :
    (∀ localOf st server channel nick,
      (part_in localOf st server channel nick).known_away = st.known_away) ∧
    (∀ st server nick, (quit_in st server nick).known_away = st.known_away) ∧
    (∀ localOf st server channel arguments,
      (kick_in localOf st server channel arguments).1.known_away = st.known_away) ∧
    (∀ st network, (irc_discon st network).1.known_away = st.known_away) ∧
    (∀ st ptr, (buffer_closed st ptr).known_away = st.known_away) ∧
    (∀ ka server nick text now, text ≠ "" →
      (((away_in ka server nick text now).1 server nick).isSome = true)) ∧
    (∀ (ka : KA) server nick now, (away_in ka server nick "" now).1 server nick = none) := by
  refine ⟨?_, ?_, ?_, ?_, ?_, ?_, ?_⟩
  · intro localOf st server channel nick
    unfold part_in
    split
    · rfl
    · split <;> rfl
  · intro st server nick
    rfl
  · intro localOf st server channel arguments
    unfold kick_in
    rcases kickTarget arguments with _ | nk
    · rfl
    · simp only []
      split
      · split <;> rfl
      · split <;> rfl
  · intro st network
    unfold irc_discon
    split <;> rfl
  · intro st ptr
    rfl
  · intro ka server nick text now ht
    unfold away_in
    rw [if_neg ht]
    rcases hka : ka server nick with _ | ⟨t0, m0⟩
    · simp [kaSet]
    · by_cases hm : text = m0
      · have : ¬(text ≠ m0) := by simpa using hm
        simp only [this, if_neg, if_false, hka]
        rfl
      · simp only [hm, ne_eq, not_false_eq_true, if_pos]
        simp [kaSet]
  · intro ka server nick now
    unfold away_in
    rw [if_pos rfl]
    rcases hka : ka server nick with _ | ⟨t0, m0⟩
    · exact hka
    · simp [kaSet]

/-- Witness for C8's amended theorem at concrete inputs. -/
theorem c8_away_entry_lifecycle_witness :
    ((away_in (fun _ _ => none) "net" "alice" "lunch" 3).1 "net" "alice").isSome = true ∧
    (away_in stC8.known_away "net" "alice" "" 9).1 "net" "alice" = none := by
  have h := c8_away_entry_lifecycle
  exact ⟨h.2.2.2.2.2.1 (fun _ _ => none) "net" "alice" "lunch" 3 (by decide),
    h.2.2.2.2.2.2 stC8.known_away "net" "alice" 9⟩

/-! ### Claim C3: presence sets under join/part/kick sequences -/

/-- A parsed membership event as delivered by the host signals. -/
inductive Ev where
  | join (server nick channel ptr : String)
  | part (server channel nick : String)
  | kick (server channel kicked : String)
  deriving DecidableEq, Repr

/-- Apply one event through the source callbacks.  A KICK is delivered with
its raw `arguments` field `"<channel> <kicked>"` (which `kick_in_cb`
re-parses); an exception raised by `kick_in` keeps the state mutations made
before the raise, exactly as a Python exception leaves the globals. -/
def stepEv (localOf : String → String) (st : St) : Ev → St
  | .join server nick channel ptr => join_in st server nick channel ptr
  | .part server channel nick => part_in localOf st server channel nick
  | .kick server channel kicked =>
      (kick_in localOf st server channel (channel ++ " " ++ kicked)).1

/-- Run a sequence of events from the freshly-loaded (empty) state. -/
def runEvs (localOf : String → String) (evs : List Ev) : St :=
  evs.foldl (stepEv localOf) St.empty

/-- A string without spaces (IRC nicks and channel names never contain
spaces; a KICK's arguments field would misparse otherwise). -/
def noSpace (s : String) : Bool := s.data.all (fun c => !(c == ' '))

/-- Well-formedness of an event: a KICK carries space-free fields. -/
def evWF : Ev → Bool
  | .kick _ channel kicked => noSpace channel && noSpace kicked
  | _ => true

/-- Specification-side single-event effect on "is `nick` shown in `chan` on
`server`": a join by the nick of that channel turns it on; a part or kick
of that channel on that network turns it off when it concerns the nick or
the local user (the local user leaving drops the channel from every
nick's presence set); all other events leave it unchanged. -/
def specStep (localOf : String → String) (server nick chan : String) (b : Bool) : Ev → Bool
  | .join s n c _ => if s = server ∧ n = nick ∧ c = chan then true else b
  | .part s c n => if s = server ∧ c = chan ∧ (n = localOf s ∨ n = nick) then false else b
  | .kick s c n => if s = server ∧ c = chan ∧ (n = localOf s ∨ n = nick) then false else b

/-- Specification-side presence after a sequence of events: the most recent
event affecting (nick, chan) on the network is a join by the nick. -/
def specMem (localOf : String → String) (evs : List Ev) (server nick chan : String) : Bool :=
  evs.foldl (specStep localOf server nick chan) false

/-- The no-duplicates invariant Python sets guarantee for every cached
presence list. -/
def StInv (st : St) : Prop := ∀ s n l, st.cache s n = some l → l.Nodup

theorem mem_setAdd (l : List String) (x a : String) :
    a ∈ setAdd l x ↔ a ∈ l ∨ a = x := by
  unfold setAdd
  by_cases hx : x ∈ l
  · rw [if_pos hx]
    constructor
    · exact Or.inl
    · rintro (h | rfl)
      · exact h
      · exact hx
  · rw [if_neg hx]
    simp

theorem nodup_setAdd (l : List String) (x : String) (h : l.Nodup) : (setAdd l x).Nodup := by
  unfold setAdd
  by_cases hx : x ∈ l
  · rwa [if_pos hx]
  · rw [if_neg hx]
    rw [List.nodup_append]
    exact ⟨h, List.nodup_singleton x, by
      intro a ha hax
      rw [List.mem_singleton] at hax
      exact hx (hax ▸ ha)⟩

theorem splitSp_ne_nil (l : List Char) : splitSp l ≠ [] := by
  induction l with
  | nil => simp [splitSp]
  | cons c t ih =>
    unfold splitSp
    by_cases hc : c = ' '
    · simp [hc]
    · rw [if_neg hc]
      rcases hs : splitSp t with _ | ⟨h, r⟩
      · exact absurd hs ih
      · simp

theorem splitSp_no_space (l : List Char) (h : ∀ c ∈ l, ¬c = ' ') : splitSp l = [l] := by
  induction l with
  | nil => rfl
  | cons c t ih =>
    rw [splitSp, if_neg (h c (by simp)), ih (fun x hx => h x (by simp [hx]))]

theorem splitSp_append (a b : List Char) (h : ∀ c ∈ a, ¬c = ' ') :
    splitSp (a ++ ' ' :: b) = a :: splitSp b := by
  induction a with
  | nil => simp [splitSp]
  | cons c t ih =>
    rw [List.cons_append, splitSp, if_neg (h c (by simp)),
      ih (fun x hx => h x (by simp [hx]))]

theorem kickTarget_pair (c k : String) (hc : noSpace c = true) (hk : noSpace k = true) :
    kickTarget (c ++ " " ++ k) = some k := by
  unfold noSpace at hc hk
  rw [List.all_eq_true] at hc hk
  have hdata : (c ++ " " ++ k).data = c.data ++ ' ' :: k.data := by
    rw [String.data_append, String.data_append, List.append_assoc]
    rfl
  unfold kickTarget
  rw [hdata, splitSp_append c.data k.data (fun x hx => by simpa using hc x hx)]
  rw [splitSp_no_space k.data (fun x hx => by simpa using hk x hx)]
  rfl

theorem nodupOptErase (o : Option (List String)) (c : String) (l : List String)
    (ho : ∀ l', o = some l' → l'.Nodup) (h : o.map (fun l' => l'.erase c) = some l) :
    l.Nodup := by
  rcases o with _ | l0
  · cases h
  · have h2 : l0.erase c = l := by
      simpa using h
    rw [← h2]
    exact (ho l0 rfl).erase c

theorem stInv_join (st : St) (server nick channel ptr : String) (h : StInv st) :
    StInv (join_in st server nick channel ptr) := by
  intro s n l hl
  simp only [join_in] at hl
  by_cases hc : s = server ∧ n = nick
  · rw [if_pos hc] at hl
    rcases hm : st.cache server nick with _ | l0 <;> rw [hm] at hl
    · cases hl
      exact List.nodup_singleton _
    · cases hl
      exact nodup_setAdd _ _ (h server nick l0 hm)
  · rw [if_neg hc] at hl
    exact h s n l hl

theorem stInv_part (localOf : String → String) (st : St) (server channel nick : String)
    (h : StInv st) : StInv (part_in localOf st server channel nick) := by
  intro s n l hl
  simp only [part_in] at hl
  split at hl
  · dsimp only at hl
    by_cases hs : s = server
    · rw [if_pos hs] at hl
      exact nodupOptErase _ _ _ (fun l' h' => h s n l' h') hl
    · rw [if_neg hs] at hl
      exact h s n l hl
  · split at hl
    · dsimp only at hl
      by_cases hs : s = server ∧ n = nick
      · rw [if_pos hs] at hl
        exact nodupOptErase _ _ _ (fun l' h' => h s n l' h') hl
      · rw [if_neg hs] at hl
        exact h s n l hl
    · exact h s n l hl

theorem stInv_kick (localOf : String → String) (st : St) (server channel arguments : String)
    (h : StInv st) : StInv (kick_in localOf st server channel arguments).1 := by
  intro s n l hl
  simp only [kick_in] at hl
  rcases hkt : kickTarget arguments with _ | nk <;> rw [hkt] at hl
  · exact h s n l hl
  · dsimp only at hl
    split at hl
    · split at hl <;>
      · dsimp only at hl
        by_cases hs : s = server
        · rw [if_pos hs] at hl
          exact nodupOptErase _ _ _ (fun l' h' => h s n l' h') hl
        · rw [if_neg hs] at hl
          exact h s n l hl
    · split at hl
      · dsimp only at hl
        by_cases hs : s = server ∧ n = nk
        · rw [if_pos hs] at hl
          exact nodupOptErase _ _ _ (fun l' h' => h s n l' h') hl
        · rw [if_neg hs] at hl
          exact h s n l hl
      · exact h s n l hl

theorem stInv_step (localOf : String → String) (st : St) (e : Ev) (h : StInv st) :
    StInv (stepEv localOf st e) := by
  rcases e with ⟨s0, n0, c0, p0⟩ | ⟨s0, c0, n0⟩ | ⟨s0, c0, k0⟩
  · exact stInv_join st s0 n0 c0 p0 h
  · exact stInv_part localOf st s0 c0 n0 h
  · exact stInv_kick localOf st s0 c0 _ h

/-- Presence check on a single optional channel set. -/
def optMem (o : Option (List String)) (chan : String) : Bool :=
  match o with
  | some l => decide (chan ∈ l)
  | none => false

theorem inPresence_eq_optMem (st : St) (server nick chan : String) :
    inPresence st server nick chan = optMem (st.cache server nick) chan := rfl

theorem presence_erase (o : Option (List String)) (c0 chan : String)
    (ho : ∀ l, o = some l → l.Nodup) :
    optMem (o.map (fun l => l.erase c0)) chan
      = if c0 = chan then false else optMem o chan := by
  rcases o with _ | l
  · simp [optMem]
  · show decide (chan ∈ l.erase c0) = _
    by_cases hc : c0 = chan
    · subst hc
      rw [if_pos rfl]
      exact decide_eq_false (fun hm =>
        (((ho l rfl).mem_erase_iff).1 hm).1 rfl)
    · rw [if_neg hc]
      show _ = decide (chan ∈ l)
      rw [decide_eq_decide, (ho l rfl).mem_erase_iff]
      constructor
      · exact fun hm => hm.2
      · exact fun hm => ⟨fun x => hc x.symm, hm⟩

theorem presence_join (st : St) (s0 n0 c0 p0 server nick chan : String) :
    inPresence (join_in st s0 n0 c0 p0) server nick chan
      = if s0 = server ∧ n0 = nick ∧ c0 = chan then true
        else inPresence st server nick chan := by
  unfold inPresence join_in
  dsimp only
  by_cases hsn : server = s0 ∧ nick = n0
  · obtain ⟨rfl, rfl⟩ := hsn
    rw [if_pos ⟨rfl, rfl⟩]
    by_cases hc : c0 = chan
    · subst hc
      rw [if_pos ⟨rfl, rfl, rfl⟩]
      rcases hm : st.cache server nick with _ | l
      · simp
      · simp [mem_setAdd]
    · rw [if_neg (fun hcc => hc hcc.2.2)]
      have hcc : ¬chan = c0 := fun x => hc x.symm
      rcases hm : st.cache server nick with _ | l
      · simp [hcc]
      · simp [mem_setAdd, hcc]
  · rw [if_neg hsn, if_neg (fun hcc => hsn ⟨hcc.1.symm, hcc.2.1.symm⟩)]

theorem presence_part (localOf : String → String) (st : St) (hinv : StInv st)
    (s0 c0 n0 server nick chan : String) :
    inPresence (part_in localOf st s0 c0 n0) server nick chan
      = if s0 = server ∧ c0 = chan ∧ (n0 = localOf s0 ∨ n0 = nick) then false
        else inPresence st server nick chan := by
  rw [inPresence_eq_optMem, inPresence_eq_optMem]
  by_cases hl : n0 = localOf s0
  · have hcache : (part_in localOf st s0 c0 n0).cache server nick =
        if server = s0 then Option.map (fun l => l.erase c0) (st.cache server nick)
        else st.cache server nick := by
      unfold part_in
      rw [if_pos hl]
    by_cases hs : server = s0
    · subst hs
      rw [hcache, if_pos rfl,
        presence_erase (st.cache server nick) c0 chan (fun l h => hinv server nick l h)]
      by_cases hc : c0 = chan
      · rw [if_pos hc, if_pos ⟨rfl, hc, Or.inl hl⟩]
      · rw [if_neg hc, if_neg (fun hcc => hc hcc.2.1)]
    · rw [hcache, if_neg hs, if_neg (fun hcc => hs hcc.1.symm)]
  · by_cases hsome : (st.cache s0 n0).isSome = true
    · have hcache : (part_in localOf st s0 c0 n0).cache server nick =
          if server = s0 ∧ nick = n0 then Option.map (fun l => l.erase c0) (st.cache server nick)
          else st.cache server nick := by
        unfold part_in
        rw [if_neg hl, if_pos hsome]
      by_cases hsn : server = s0 ∧ nick = n0
      · obtain ⟨rfl, rfl⟩ := hsn
        rw [hcache, if_pos ⟨rfl, rfl⟩,
          presence_erase (st.cache server nick) c0 chan (fun l h => hinv server nick l h)]
        by_cases hc : c0 = chan
        · rw [if_pos hc, if_pos ⟨rfl, hc, Or.inr rfl⟩]
        · rw [if_neg hc, if_neg (fun hcc => hc hcc.2.1)]
      · rw [hcache, if_neg hsn, if_neg (fun hcc => by
          rcases hcc with ⟨hs, hc, hn | hn⟩
          · exact hl hn
          · exact hsn ⟨hs.symm, hn.symm⟩)]
    · have hst : part_in localOf st s0 c0 n0 = st := by
        unfold part_in
        rw [if_neg hl, if_neg hsome]
      rw [hst]
      by_cases hcond : s0 = server ∧ c0 = chan ∧ (n0 = localOf s0 ∨ n0 = nick)
      · rw [if_pos hcond]
        obtain ⟨hs, hc, hn | hn⟩ := hcond
        · exact absurd hn hl
        · subst hs
          subst hn
          rcases hm : st.cache s0 n0 with _ | l
          · rfl
          · exact absurd (by rw [hm]; rfl) hsome
      · rw [if_neg hcond]

theorem presence_kick (localOf : String → String) (st : St) (hinv : StInv st)
    (s0 c0 k0 server nick chan : String)
    (hc0 : noSpace c0 = true) (hk0 : noSpace k0 = true) :
    inPresence (kick_in localOf st s0 c0 (c0 ++ " " ++ k0)).1 server nick chan
      = if s0 = server ∧ c0 = chan ∧ (k0 = localOf s0 ∨ k0 = nick) then false
        else inPresence st server nick chan := by
  rw [inPresence_eq_optMem, inPresence_eq_optMem]
  have hkt := kickTarget_pair c0 k0 hc0 hk0
  by_cases hl : k0 = localOf s0
  · have hcache : (kick_in localOf st s0 c0 (c0 ++ " " ++ k0)).1.cache server nick =
        if server = s0 then Option.map (fun l => l.erase c0) (st.cache server nick)
        else st.cache server nick := by
      unfold kick_in
      rw [hkt]
      dsimp only
      rw [if_pos hl]
      split <;> rfl
    by_cases hs : server = s0
    · subst hs
      rw [hcache, if_pos rfl,
        presence_erase (st.cache server nick) c0 chan (fun l h => hinv server nick l h)]
      by_cases hc : c0 = chan
      · rw [if_pos hc, if_pos ⟨rfl, hc, Or.inl hl⟩]
      · rw [if_neg hc, if_neg (fun hcc => hc hcc.2.1)]
    · rw [hcache, if_neg hs, if_neg (fun hcc => hs hcc.1.symm)]
  · by_cases hsome : (st.cache s0 k0).isSome = true
    · have hcache : (kick_in localOf st s0 c0 (c0 ++ " " ++ k0)).1.cache server nick =
          if server = s0 ∧ nick = k0 then Option.map (fun l => l.erase c0) (st.cache server nick)
          else st.cache server nick := by
        unfold kick_in
        rw [hkt]
        dsimp only
        rw [if_neg hl, if_pos hsome]
      by_cases hsn : server = s0 ∧ nick = k0
      · obtain ⟨rfl, rfl⟩ := hsn
        rw [hcache, if_pos ⟨rfl, rfl⟩,
          presence_erase (st.cache server nick) c0 chan (fun l h => hinv server nick l h)]
        by_cases hc : c0 = chan
        · rw [if_pos hc, if_pos ⟨rfl, hc, Or.inr rfl⟩]
        · rw [if_neg hc, if_neg (fun hcc => hc hcc.2.1)]
      · rw [hcache, if_neg hsn, if_neg (fun hcc => by
          rcases hcc with ⟨hs, hc, hn | hn⟩
          · exact hl hn
          · exact hsn ⟨hs.symm, hn.symm⟩)]
    · have hst : (kick_in localOf st s0 c0 (c0 ++ " " ++ k0)).1 = st := by
        unfold kick_in
        rw [hkt]
        dsimp only
        rw [if_neg hl, if_neg hsome]
      rw [hst]
      by_cases hcond : s0 = server ∧ c0 = chan ∧ (k0 = localOf s0 ∨ k0 = nick)
      · rw [if_pos hcond]
        obtain ⟨hs, hc, hn | hn⟩ := hcond
        · exact absurd hn hl
        · subst hs
          subst hn
          rcases hm : st.cache s0 k0 with _ | l
          · rfl
          · exact absurd (by rw [hm]; rfl) hsome
      · rw [if_neg hcond]

theorem presence_step (localOf : String → String) (st : St) (hinv : StInv st) (e : Ev)
    (hwf : evWF e = true) (server nick chan : String) :
    inPresence (stepEv localOf st e) server nick chan
      = specStep localOf server nick chan (inPresence st server nick chan) e := by
  rcases e with ⟨s0, n0, c0, p0⟩ | ⟨s0, c0, n0⟩ | ⟨s0, c0, k0⟩
  · exact presence_join st s0 n0 c0 p0 server nick chan
  · exact presence_part localOf st hinv s0 c0 n0 server nick chan
  · have hwf2 : noSpace c0 = true ∧ noSpace k0 = true := by
      simpa [evWF, Bool.and_eq_true] using hwf
    exact presence_kick localOf st hinv s0 c0 k0 server nick chan hwf2.1 hwf2.2

theorem foldl_presence (localOf : String → String) (evs : List Ev) :
    ∀ st, StInv st → (∀ e ∈ evs, evWF e = true) → ∀ server nick chan,
    inPresence (evs.foldl (stepEv localOf) st) server nick chan
      = evs.foldl (specStep localOf server nick chan) (inPresence st server nick chan) := by
  induction evs with
  | nil =>
    intro st _ _ server nick chan
    rfl
  | cons e t ih =>
    intro st hinv hwf server nick chan
    rw [List.foldl_cons, List.foldl_cons,
      ih (stepEv localOf st e) (stInv_step localOf st e hinv)
        (fun e' he' => hwf e' (by simp [he'])) server nick chan,
      presence_step localOf st hinv e (hwf e (by simp)) server nick chan]

/-- The channels a nick itself joined on a network, in order. -/
def joinedChans (evs : List Ev) (server nick : String) : List String :=
  evs.filterMap (fun e => match e with
    | .join s n c _ => if s = server ∧ n = nick then some c else none
    | _ => none)

/-- The channels a nick itself parted or was kicked from on a network. -/
def leftChans (evs : List Ev) (server nick : String) : List String :=
  evs.filterMap (fun e => match e with
    | .part s c n => if s = server ∧ n = nick then some c else none
    | .kick s c k => if s = server ∧ k = nick then some c else none
    | _ => none)

/-- Events for the C3 counterexample: join, part, rejoin of the same
channel by the same nick. -/
def evsC3 : List Ev :=
  [.join "net" "a" "#c" "p", .part "net" "#c" "a", .join "net" "a" "#c" "p"]

/-- C3 counterexample: after join-part-rejoin, the cache holds "#c" for
nick "a", but "#c" is not in (channels joined) minus (channels
parted/kicked) read as a set difference — the claim's set-difference
formulation ignores event order. -/
theorem c3_counterexample :
    inPresence (runEvs (fun _ => "me") evsC3) "net" "a" "#c" = true ∧
    decide ("#c" ∈ joinedChans evsC3 "net" "a" ∧ "#c" ∉ leftChans evsC3 "net" "a") = false :=
  ⟨by decide, by decide⟩

/-- C3 amended: for every sequence of well-formed join/part/kick events run
from the empty cache, a channel is in the presence set the cache holds for
a nick if and only if the most recent event affecting (nick, channel) on
that network — a join by that nick, a part/kick of that nick, or a
part/kick of the local user for that channel — is the join
(`specMem`, a fold of `specStep` over the events). -/
theorem c3_presence_fold (localOf : String → String) (evs : List Ev)
    (hwf : ∀ e ∈ evs, evWF e = true) (server nick chan : String) :
    inPresence (runEvs localOf evs) server nick chan
      = specMem localOf evs server nick chan := by
  unfold runEvs specMem
  rw [foldl_presence localOf evs St.empty (fun s n l h => Option.noConfusion h)
    hwf server nick chan]
  rfl

/-- Events for the C3 witness: a join followed by a kick of the same nick. -/
def evsC3w : List Ev := [.join "net" "a" "#c" "p", .kick "net" "#c" "a"]

/-- Witness for C3's amended theorem at a concrete event sequence. -/
theorem c3_presence_fold_witness :
    inPresence (runEvs (fun _ => "me") evsC3w) "net" "a" "#c"
      = specMem (fun _ => "me") evsC3w "net" "a" "#c" :=
  c3_presence_fold (fun _ => "me") evsC3w (by decide) "net" "a" "#c"

/-! ### Claim C9: `propagate_common_msg` and dangling buffer handles -/

/-- The host data `propagate_common_msg` can request: the `irc_channel`
infolist (channel name, buffer pointer) and the per-channel `irc_nick`
infolist; `none` models an infolist that cannot be read. -/
structure Host where
  chansIl : Option (List (String × String))
  nicksIl : String → Option (List String)

/-- The first loop of `propagate_common_msg`: print to the cached buffer of
every channel in the nick's presence set.  Returns the pointers printed to
(in order, the prints made before any raise included) and the `KeyError`
raised by `get_buffer` on the first channel with no `BUFFERS` entry. -/
def printChans (st : St) (server : String) : List String → List String × Option Err
  | [] => ([], none)
  | chan :: rest =>
    match get_buffer st server chan with
    | some p => ((p :: (printChans st server rest).1), (printChans st server rest).2)
    | none => ([], some Err.keyError)

/-- The fallback scan of `propagate_common_msg` (runs only when the cache
answered incompletely and no exception was raised): reads the channel
infolist, records every buffer pointer, prints to the query/common
channels found, and repopulates the presence cache from the nick
infolists. -/
def propagateRest (host : Host) (st : St) (server common_nick : String)
    (prints1 : List String) : St × List String × Option Err :=
  let found_channel := (st.cache server common_nick).isSome
  let found_query := (dictGet? st.buffers (server ++ "." ++ common_nick)).isSome
  let prints2 := prints1 ++
    (match dictGet? st.buffers (server ++ "." ++ common_nick) with
     | some p => [p]
     | none => [])
  if found_channel ∧ found_query then (st, prints2, none)
  else
    match host.chansIl with
    | none => (st, prints2, none)
    | some rows =>
      let channels := rows.foldl (fun d r => dictSet d r.1 r.2) []
      let out := channels.foldl (fun (acc : St × List String) cp =>
        let st1 := { acc.1 with
          buffers := dictSet acc.1.buffers (server ++ "." ++ cp.1) cp.2 }
        if ¬found_query ∧ common_nick = cp.1 then (st1, acc.2 ++ [cp.2])
        else if found_channel then (st1, acc.2)
        else
          match host.nicksIl cp.1 with
          | none => (st1, acc.2)
          | some nicks => nicks.foldl (fun (acc2 : St × List String) sn =>
              let acc3 := if common_nick = sn ∨ common_nick = cp.1 then
                  (acc2.1, acc2.2 ++ [cp.2])
                else acc2
              ({ acc3.1 with cache := fun s n =>
                  if s = server ∧ n = sn then
                    (match acc3.1.cache server sn with
                     | none => some [cp.1]
                     | some l => some (setAdd l cp.1))
                  else acc3.1.cache s n }, acc3.2)) (st1, acc.2)) (st, prints2)
      (out.1, out.2, none)

/-- `propagate_common_msg`: first the cached-presence prints (which can
raise `KeyError`, aborting the callback), then the query-buffer print,
then the fallback infolist scan. -/
def propagate (host : Host) (st : St) (server common_nick : String) :
    St × List String × Option Err :=
  let r1 :=
    match st.cache server common_nick with
    | some chans => printChans st server chans
    | none => ([], none)
  match r1.2 with
  | some e => (st, r1.1, some e)
  | none => propagateRest host st server common_nick r1.1

theorem printChans_error (st : St) (server : String) (chans : List String) (chan : String)
    (hmem : chan ∈ chans) (hfail : get_buffer st server chan = none) :
    (printChans st server chans).2 = some Err.keyError := by
  induction chans with
  | nil => cases hmem
  | cons c rest ih =>
    rcases List.mem_cons.mp hmem with rfl | hmem2
    · rw [printChans, hfail]
    · rcases hg : get_buffer st server c with _ | p
      · rw [printChans, hg]
      · rw [printChans, hg]
        exact ih hmem2

/-- C9: if `record_buffer_closed` removes the buffer-handle entry of a
channel still contained in some nick's cached presence set, the next
away-status print for that nick raises `KeyError` in `get_buffer` instead
of printing to the remaining cached buffers: the code does not preserve
the invariant that every channel of a presence set has a buffer-handle
entry. -/
theorem c9_dangling_buffer_print_fails (host : Host) (st0 : St)
    (ptr server nick chan : String) (chans : List String)
    (hrm : dictGet? st0.buffers (server ++ "." ++ chan) = some ptr)
    (hgone : dictGet? (buffer_closed st0 ptr).buffers (server ++ "." ++ chan) = none)
    (hca : (buffer_closed st0 ptr).cache server nick = some chans)
    (hmem : chan ∈ chans) :
    (propagate host (buffer_closed st0 ptr) server nick).2.2 = some Err.keyError := by
  unfold propagate
  rw [hca]
  dsimp only
  rw [printChans_error (buffer_closed st0 ptr) server chans chan hmem hgone]

/-- Concrete state for claim C9. -/
def stC9 : St :=
  { known_away := fun _ _ => none,
    cache := fun s n => if s = "net" ∧ n = "alice" then some ["#c"] else none,
    buffers := [("net.#c", "p")] }

/-- Witness for C9 at a concrete state: closing the buffer "p" removes the
entry for "#c" while "#c" stays in alice's presence set, and the next
propagate raises `KeyError`. -/
theorem c9_dangling_buffer_print_fails_witness :
    (propagate ⟨none, fun _ => none⟩ (buffer_closed stC9 "p") "net" "alice").2.2
      = some Err.keyError :=
  c9_dangling_buffer_print_fails ⟨none, fun _ => none⟩ stC9 "p" "net" "alice" "#c"
    ["#c"] rfl rfl rfl (by decide)

/-! ### Claim C10: `relay_activity.py` relay counter callbacks -/

/-- `.+$` on what follows a slash: at least one non-newline character,
ending at the end of the string or just before one trailing newline
(Python `$` semantics, `.` not matching newline). -/
def dotPlusEnd (r : List Char) : Bool :=
  let body := r.takeWhile (fun c => !(c == '\n'))
  decide (body ≠ []) &&
    (decide (r.drop body.length = []) || decide (r.drop body.length = ['\n']))

/-- `(?P<name>[^ ]+)?\/.+$`: greedy optional name group (longest space-free
prefix first, down to absent), then a slash and `.+$`.  Returns `none`
when nothing matches, otherwise the name group's value. -/
def nameSlash (r : List Char) : Option (Option String) :=
  let m := r.takeWhile (fun c => !(c == ' '))
  match (List.range (m.length + 1)).reverse.find? (fun k =>
      match r.drop k with
      | '/' :: rest => dotPlusEnd rest
      | _ => false) with
  | some 0 => some none
  | some k => some (some (String.mk (r.take k)))
  | none => none

/-- `(?:irc|weechat)`: the protocol alternation (no string starts with
both, so first-match is deterministic). -/
def protoMatch (r : List Char) : Option (String × List Char) :=
  if "irc".data.isPrefixOf r then some ("irc", r.drop 3)
  else if "weechat".data.isPrefixOf r then some ("weechat", r.drop 7)
  else none

/-- An optional literal group `(?:lit)?`: consume the literal when present
(none of the literals used here can prefix a protocol match, so no
backtracking is ever needed). -/
def dropLit (lit : List Char) (r : List Char) : List Char :=
  if lit.isPrefixOf r then r.drop lit.length else r

/-- `RELAY_REGEX`: `^[0-9]+\/(?:ipv4\.)?(?:ipv6\.)?(?:ssl\.)?`
`(?P<protocol>irc|weechat)\.?(?P<name>[^ ]+)?\/.+$` — returns the
(protocol, optional name) groups of a match, `none` when the descriptor
does not match.  The optional dot after the protocol is greedy, so the
consumed-dot parse is tried first and the parse backtracks to the
unconsumed-dot one only if the tail fails. -/
def matchRelayDesc (s : String) : Option (String × Option String) :=
  let cs := s.data
  let digits := cs.takeWhile Char.isDigit
  if digits = [] then none
  else
    match cs.drop digits.length with
    | '/' :: r1 =>
      let r4 := dropLit "ssl.".data (dropLit "ipv6.".data (dropLit "ipv4.".data r1))
      match protoMatch r4 with
      | none => none
      | some (proto, r5) =>
        match r5 with
        | '.' :: r6 =>
          match nameSlash r6 with
          | some name? => some (proto, name?)
          | none =>
            match nameSlash r5 with
            | some name? => some (proto, name?)
            | none => none
        | _ =>
          match nameSlash r5 with
          | some name? => some (proto, name?)
          | none => none
    | _ => none

/-- `relay_get_server`: look up the relay's infolist and regex-match its
`desc` string.  `desc? = none` models an infolist that cannot be read (or
has no row); the result `none` models the empty dict `{}` returned when
the infolist is missing or the regex does not match, and `some (protocol,
name?)` models `match.groupdict()`. -/
def relay_get_server (desc? : Option String) : Option (String × Option String) :=
  match desc? with
  | none => none
  | some d => matchRelayDesc d

/-- `relay_authed_cb`: `server["protocol"]` raises `KeyError` on the empty
dict; otherwise the IRC relay counter is incremented for `"irc"`. -/
def relay_authed_cb (relays : Int) (desc? : Option String) : Except Err Int :=
  match relay_get_server desc? with
  | none => .error Err.keyError
  | some pr => .ok (if pr.1 = "irc" then relays + 1 else relays)

/-- `relay_discon`: as `relay_authed_cb` but decrementing. -/
def relay_discon (relays : Int) (desc? : Option String) : Except Err Int :=
  match relay_get_server desc? with
  | none => .error Err.keyError
  | some pr => .ok (if pr.1 = "irc" then relays - 1 else relays)

/-- Sanity check of the descriptor matcher on a well-formed relay
descriptor (an `irc` relay for network "freenode"). -/
theorem matchRelayDesc_positive :
    matchRelayDesc "12/irc.freenode/1.2.3.4" = some ("irc", some "freenode") ∧
    matchRelayDesc "3/ssl.weechat/host" = some ("weechat", none) := by
  constructor <;> decide

/-- C10: a relay whose infolist cannot be read, and one whose descriptor
does not match `RELAY_REGEX`, both make `relay_get_server` return the
empty mapping, and then `relay_authed_cb` and `relay_discon` raise
`KeyError` on the "protocol" field instead of leaving the relay counter
unchanged. -/
theorem c10_relay_protocol_keyError :
    relay_get_server none = none ∧
    relay_get_server (some "garbage") = none ∧
    relay_authed_cb 0 none = .error Err.keyError ∧
    relay_authed_cb 0 (some "garbage") = .error Err.keyError ∧
    relay_discon 5 none = .error Err.keyError ∧
    relay_discon 5 (some "garbage") = .error Err.keyError :=
  ⟨rfl, by decide, rfl, by rfl, rfl, by rfl⟩
